import Mathlib

/-!
# Verification of the PyLantir region data model

Shallow embedding of the region-data / persistence-merge engine of the
PyLantir turn-report viewer (`pylantir/data/data_manager.py`,
`pylantir/data/data_mngr.py`, `pylantir/data/map_manager.py`,
`pylantir/views/hex_map.py`), together with proofs about coordinate
validation, report ingestion, the persistent overlay store, and event
aggregation.

Python values appearing in parsed JSON reports are modelled by the
inductive type `PyVal`; Python `dict`s are modelled as ordered
association lists, with `dict.update` and item assignment translated to
`setKey`/`dictUpdate` below.  Region-store and overlay keys are
coordinate pairs of integers, the coordinate type of the report format.
File I/O and JSON text encoding are external library calls in the
source; they are modelled at the parsed-value level: a parse is an
`Option`-valued input (`none` = the parse raised), and the flat overlay
file is its parsed dictionary.
-/

namespace PyLantir

/-- A JSON-like Python value as produced by `json.load`: `None`, booleans,
integers, strings, lists, and string-keyed dictionaries (as ordered
association lists).  Floating-point numbers do not occur in the data the
claims concern and are not modelled. -/
inductive PyVal where
  | none
  | bool (b : Bool)
  | int (n : Int)
  | str (s : String)
  | list (xs : List PyVal)
  | dict (entries : List (String × PyVal))
deriving Repr

mutual

/-- Structural equality of `PyVal`s, modelling Python `==` on report data.
(Python additionally equates `True`/`False` with `1`/`0` and compares
dictionaries key-set-wise; the places where the source compares a value
against an `int` variable use `pyEqInt` below, which models the numeric
coercion.  Container-valued deduplication keys would be unhashable in
Python and crash the source, so only structural container equality
arises here.) -/
def PyVal.beq : PyVal → PyVal → Bool
  | .none, .none => true
  | .bool a, .bool b => a == b
  | .int a, .int b => a == b
  | .str a, .str b => a == b
  | .list as, .list bs => PyVal.beqList as bs
  | .dict as, .dict bs => PyVal.beqDict as bs
  | _, _ => false

/-- Elementwise equality of `PyVal` lists. -/
def PyVal.beqList : List PyVal → List PyVal → Bool
  | [], [] => true
  | a :: as, b :: bs => PyVal.beq a b && PyVal.beqList as bs
  | _, _ => false

/-- Entrywise equality of `PyVal` dictionaries. -/
def PyVal.beqDict : List (String × PyVal) → List (String × PyVal) → Bool
  | [], [] => true
  | (k, v) :: as, (k', v') :: bs => k == k' && PyVal.beq v v' && PyVal.beqDict as bs
  | _, _ => false

end

/-- `PyVal.beq` decides equality, so Python `==`/`in` on report scalars is
propositional equality here. -/
instance PyVal.instDecEq : DecidableEq PyVal := fun a b =>
  decidable_of_iff (PyVal.beq a b = true) (by
  have H : ∀ n, ∀ (a b : PyVal), sizeOf a < n → (PyVal.beq a b = true ↔ a = b) := by
    intro n
    induction n with
    | zero => intro a b h; omega
    | succ n ih =>
      intro a b hlt
      cases a <;> cases b <;> simp [PyVal.beq]
      case list.list as bs =>
        induction as generalizing bs with
        | nil => cases bs <;> simp [PyVal.beqList]
        | cons a as iha =>
          cases bs with
          | nil => simp [PyVal.beqList]
          | cons b bs =>
            have ha : sizeOf a < n := by
              have := hlt; simp at this; omega
            have has : sizeOf (PyVal.list as) < Nat.succ n := by
              have := hlt; simp at this ⊢; omega
            simp [PyVal.beqList, ih a b ha, iha has]
      case dict.dict as bs =>
        induction as generalizing bs with
        | nil => cases bs <;> simp [PyVal.beqDict]
        | cons a as iha =>
          cases bs with
          | nil => simp [PyVal.beqDict]
          | cons b bs =>
            obtain ⟨k, v⟩ := a
            obtain ⟨k', v'⟩ := b
            have hv : sizeOf v < n := by
              have := hlt; simp at this; omega
            have has : sizeOf (PyVal.dict as) < Nat.succ n := by
              have := hlt; simp at this ⊢; omega
            simp [PyVal.beqDict, ih v v' hv, iha has, and_assoc]
  exact H (sizeOf a + 1) a b (Nat.lt_succ_self _))

/-! ## Ordered dictionaries as association lists

A Python `dict` keeps one entry per key and preserves insertion order:
assigning to an existing key replaces the value in place, assigning to a
new key appends.  `alookup`, `setKey`, and `dictUpdate` translate
`d[k]` / `d.get(k)`, `d[k] = v`, and `d.update(u)` respectively. -/

/-- First value stored under key `k` (`d.get(k)` / `d[k]`, as an `Option`). -/
def alookup {α β : Type} [DecidableEq α] : List (α × β) → α → Option β
  | [], _ => Option.none
  | (k', v) :: rest, k => if k' = k then some v else alookup rest k

/-- `d[k] = v`: replace the value at `k` in place, or append a new entry. -/
def setKey {α β : Type} [DecidableEq α] : List (α × β) → α → β → List (α × β)
  | [], k, v => [(k, v)]
  | (k', v') :: rest, k, v =>
      if k' = k then (k, v) :: rest else (k', v') :: setKey rest k v

/-- `d.update(u)`: fold the entries of `u` into `d` left to right. -/
def dictUpdate {α β : Type} [DecidableEq α] (d u : List (α × β)) : List (α × β) :=
  u.foldl (fun acc kv => setKey acc kv.1 kv.2) d

/-- The keys of an association list, in order. -/
def keysOf {α β : Type} (l : List (α × β)) : List α :=
  l.map Prod.fst

/-! ## Python access helpers -/

/-- `d.get(k)`: value at `k`, defaulting to Python `None`. -/
def pyGet (d : List (String × PyVal)) (k : String) : PyVal :=
  (alookup d k).getD PyVal.none

/-- `d.get(k, default)`. -/
def pyGetD (d : List (String × PyVal)) (k : String) (default : PyVal) : PyVal :=
  (alookup d k).getD default

/-- View a value as a dictionary.  The source calls `.get` on these values
and would raise `AttributeError` on a non-`dict`; report data is
well-formed at those points, and a non-`dict` is viewed as empty here. -/
def asDict : PyVal → List (String × PyVal)
  | .dict d => d
  | _ => []

/-- View a value as a list.  The source iterates over these values and
would raise `TypeError` on a non-list; a non-list is viewed as empty. -/
def asList : PyVal → List PyVal
  | .list l => l
  | _ => []

/-- Python truthiness of a report value (`if message:` etc.). -/
def isTruthy : PyVal → Bool
  | .none => false
  | .bool b => b
  | .int n => n != 0
  | .str s => !s.isEmpty
  | .list l => !l.isEmpty
  | .dict d => !d.isEmpty

/-- Python `v == x` for an integer `x`: numeric values compare by value
(`True == 1`), everything else compares unequal. -/
def pyEqInt : PyVal → Int → Bool
  | .int n, m => n == m
  | .bool b, m => (if b then (1 : Int) else 0) == m
  | _, _ => false

/-! ## Decimal coordinate keys

`DataManager.save_persistent_data` writes the overlay with string keys
`f"{x},{y}"`; `load_persistent_data` recovers a coordinate with
`tuple(map(int, k.split(',')))`.  Strings are modelled as `List Char`;
`intToChars` models Python `str` of an `int` and `parseIntChars` models
`int()` on sign-and-digits input (`int()` raises on anything else on
these keys, modelled as `Option.none`). -/

/-- The ASCII character of a decimal digit. -/
def digitChar (d : Nat) : Char := Char.ofNat (48 + d)

/-- Decimal rendering of a natural number, most significant digit first. -/
def natToChars (n : Nat) : List Char :=
  if n = 0 then ['0'] else (Nat.digits 10 n).reverse.map digitChar

/-- Python `str` of an integer. -/
def intToChars : Int → List Char
  | .ofNat n => natToChars n
  | .negSucc n => '-' :: natToChars (n + 1)

/-- Value of a decimal digit character, if it is one. -/
def charToDigit (c : Char) : Option Nat :=
  if '0' ≤ c ∧ c ≤ '9' then some (c.toNat - 48) else Option.none

/-- The digit values of a character string, if all are decimal digits. -/
def digitsOfChars : List Char → Option (List Nat)
  | [] => some []
  | c :: cs => (charToDigit c).bind fun d => (digitsOfChars cs).map (d :: ·)

/-- Python `int()` on a nonempty all-digit string. -/
def parseNatChars (cs : List Char) : Option Nat :=
  if cs.isEmpty then Option.none
  else (digitsOfChars cs).map (fun ds => Nat.ofDigits 10 ds.reverse)

/-- Python `int()` on an optionally `-`-signed decimal string. -/
def parseIntChars : List Char → Option Int
  | [] => Option.none
  | c :: rest =>
      if c = '-' then (parseNatChars rest).map (fun n => -(n : Int))
      else (parseNatChars (c :: rest)).map (fun n => (n : Int))

/-- Python `str.split(',')`. -/
def splitOnComma : List Char → List (List Char)
  | [] => [[]]
  | c :: rest =>
      if c = ',' then [] :: splitOnComma rest
      else
        match splitOnComma rest with
        | [] => [[c]]
        | p :: ps => (c :: p) :: ps

/-- The overlay file key for coordinate `(x, y)`: `f"{x},{y}"`. -/
def encodeKey (x y : Int) : List Char :=
  intToChars x ++ ',' :: intToChars y

/-- `tuple(map(int, k.split(',')))`, restricted to the two-field keys the
serializer produces.  (On a key with a different number of commas Python
would build a tuple of another arity, never a valid coordinate; that is
folded into the failure case here.) -/
def decodeKey (cs : List Char) : Option (Int × Int) :=
  match splitOnComma cs with
  | [a, b] =>
      match parseIntChars a, parseIntChars b with
      | some x, some y => some (x, y)
      | _, _ => Option.none
  | _ => Option.none

/-! ## Coordinate validation (`HexMapView.is_valid_hex_coordinate`) -/

/-- `hex_map.py`: reject negative coordinates, then require `y` to match
the parity of `x`.  (Lean's `Int` `%` is Euclidean and agrees with
Python `%` for the positive modulus `2`.) -/
def is_valid_hex_coordinate (x y : Int) : Bool :=
  if x < 0 || y < 0 then false
  else if x % 2 == 0 then y % 2 == 0
  else y % 2 == 1

/-! ## `DataManager` (`pylantir/data/data_manager.py`)

The parsed JSON report (`self.report_data`) is a string-keyed
dictionary; `self.regions` and `self.persistent_map_data` are
dictionaries keyed by integer coordinate pairs (the coordinate type of
the report format); `self.events` is the report's raw event list. -/

/-- The state held by a `DataManager` instance. -/
structure DataManagerState where
  report_data : List (String × PyVal)
  persistent_map_data : List ((Int × Int) × List (String × PyVal))
  regions : List ((Int × Int) × List (String × PyVal))
  events : List PyVal
deriving Repr, DecidableEq

/-- `DataManager.__init__`: empty data structures. -/
def initDataManager : DataManagerState :=
  { report_data := [], persistent_map_data := [], regions := [], events := [] }

/-- Coordinate extraction in `_process_report_data`:
`region.get('coordinates', {})` then `.get('x')` / `.get('y')`, skipping
the entry when either is `None`.  Report coordinates are integers. -/
def coordsOf (region : List (String × PyVal)) : Option (Int × Int) :=
  match pyGetD region "coordinates" (.dict []) with
  | .dict c =>
      match alookup c "x", alookup c "y" with
      | some (.int x), some (.int y) => some (x, y)
      | _, _ => Option.none
  | _ => Option.none

/-- `DataManager._merge_persistent_data(x, y)`: when the overlay has an
entry for the coordinate, initialize a stub region if none exists, then
`dict.update` the overlay entry into the region. -/
def mergePersistentData (pm : List ((Int × Int) × List (String × PyVal)))
    (key : Int × Int) (regions : List ((Int × Int) × List (String × PyVal))) :
    List ((Int × Int) × List (String × PyVal)) :=
  match alookup pm key with
  | Option.none => regions
  | some facts =>
      let base :=
        match alookup regions key with
        | some r => r
        | Option.none =>
            [("coordinates", PyVal.dict [("x", PyVal.int key.1), ("y", PyVal.int key.2)])]
      setKey regions key (dictUpdate base facts)

/-- The region-loop body of `DataManager._process_report_data`: skip an
entry without coordinates, otherwise store it under its coordinate key
and merge the overlay entry in. -/
def processRegionEntry (pm : List ((Int × Int) × List (String × PyVal)))
    (regions : List ((Int × Int) × List (String × PyVal))) (entry : PyVal) :
    List ((Int × Int) × List (String × PyVal)) :=
  match coordsOf (asDict entry) with
  | Option.none => regions
  | some key => mergePersistentData pm key (setKey regions key (asDict entry))

/-- `DataManager._process_report_data`: clear `regions`, ingest every
region entry of the report, and replace `events` with the report's
event list. -/
def processReportData (s : DataManagerState) : DataManagerState :=
  { s with
    regions := (asList (pyGetD s.report_data "regions" (.list []))).foldl
      (processRegionEntry s.persistent_map_data) []
    events := asList (pyGetD s.report_data "events" (.list [])) }

/-- `DataManager.load_report`: parse the file and process it; on a read
or parse error (`parsed = none`) re-raise with the state untouched.
The returned `Bool` is `true` on success. -/
def load_report (parsed : Option (List (String × PyVal))) (s : DataManagerState) :
    DataManagerState × Bool :=
  match parsed with
  | Option.none => (s, false)
  | some doc => (processReportData { s with report_data := doc }, true)

/-- `DataManager._apply_persistent_data`: merge every overlay entry into
`regions`. -/
def applyPersistentData (s : DataManagerState) : DataManagerState :=
  { s with
    regions := s.persistent_map_data.foldl
      (fun regs kv => mergePersistentData s.persistent_map_data kv.1 regs) s.regions }

/-- `DataManager.save_persistent_data`: the serialized overlay dictionary,
keyed by `f"{x},{y}"`.  (The JSON text itself is produced by
`json.dump`, modelled at the parsed level.) -/
def save_persistent_data (s : DataManagerState) :
    List (List Char × List (String × PyVal)) :=
  s.persistent_map_data.map (fun kv => (encodeKey kv.1.1 kv.1.2, kv.2))

/-- Key decoding in `DataManager.load_persistent_data`:
`{tuple(map(int, k.split(','))): v for k, v in data.items()}`, failing
(`ValueError`, re-raised) when a key does not parse. -/
def decodePersistentData : List (List Char × List (String × PyVal)) →
    Option (List ((Int × Int) × List (String × PyVal)))
  | [] => some []
  | kv :: rest =>
      match decodeKey kv.1 with
      | some c => (decodePersistentData rest).map ((c, kv.2) :: ·)
      | Option.none => Option.none

/-- `DataManager.load_persistent_data` on a successfully read and parsed
file: replace the overlay and apply it to the regions; on a decode
failure the comprehension raises before the assignment, leaving the
state untouched. -/
def load_persistent_data (data : List (List Char × List (String × PyVal)))
    (s : DataManagerState) : DataManagerState × Bool :=
  match decodePersistentData data with
  | Option.none => (s, false)
  | some pm => (applyPersistentData { s with persistent_map_data := pm }, true)

/-- `DataManager.get_region`. -/
def get_region (s : DataManagerState) (x y : Int) : Option (List (String × PyVal)) :=
  alookup s.regions (x, y)

/-- `DataManager.update_region`: merge `data` into an existing region and
into its overlay entry, or initialize both. -/
def update_region (s : DataManagerState) (x y : Int) (data : List (String × PyVal)) :
    DataManagerState :=
  match alookup s.regions (x, y) with
  | some r =>
      { s with
        regions := setKey s.regions (x, y) (dictUpdate r data)
        persistent_map_data :=
          setKey s.persistent_map_data (x, y)
            (dictUpdate ((alookup s.persistent_map_data (x, y)).getD []) data) }
  | Option.none =>
      { s with
        regions := setKey s.regions (x, y)
          (dictUpdate [("coordinates", PyVal.dict [("x", PyVal.int x), ("y", PyVal.int y)])] data)
        persistent_map_data := setKey s.persistent_map_data (x, y) data }

/-- `DataManager.get_events_for_region`: events whose region reference
carries exactly this coordinate. -/
def get_events_for_region (s : DataManagerState) (x y : Int) : List PyVal :=
  s.events.filter fun e =>
    let coords := asDict (pyGetD (asDict (pyGetD (asDict e) "region" (.dict []))) "coordinates" (.dict []))
    pyEqInt (pyGet coords "x") x && pyEqInt (pyGet coords "y") y

/-- The `number` field of an event's unit reference
(`event.get('unit', {}).get('number')`). -/
def eventUnitNumber (e : PyVal) : PyVal :=
  pyGet (asDict (pyGetD (asDict e) "unit" (.dict []))) "number"

/-- `DataManager.get_events_for_units`: events whose unit reference's
number is in the given list (Python `in`, i.e. `==` against each). -/
def get_events_for_units (s : DataManagerState) (unit_numbers : List PyVal) : List PyVal :=
  s.events.filter fun e => unit_numbers.contains (eventUnitNumber e)

/-- The unit numbers stationed at a hex:
`[unit.get('number') for unit in units if unit.get('number') is not None]`
over `region.get('units', [])` (empty when the region is absent). -/
def hexUnitNumbers (s : DataManagerState) (x y : Int) : List PyVal :=
  let units :=
    match get_region s x y with
    | some r => asList (pyGetD r "units" (.list []))
    | Option.none => []
  units.filterMap fun u =>
    let n := pyGet (asDict u) "number"
    if n = PyVal.none then Option.none else some n

/-- An event's `message` field. -/
def eventMessage (e : PyVal) : PyVal :=
  pyGet (asDict e) "message"

/-- The deduplication loop of `get_all_events_for_hex`: keep an event iff
its message is truthy and not seen before, recording seen messages. -/
def dedupEventsGo : List PyVal → List PyVal → List PyVal
  | [], _ => []
  | e :: rest, seen =>
      let m := eventMessage e
      if isTruthy m && !seen.contains m then e :: dedupEventsGo rest (m :: seen)
      else dedupEventsGo rest seen

/-- Deduplicate a list of events by message, starting from no seen keys. -/
def dedupEvents (l : List PyVal) : List PyVal :=
  dedupEventsGo l []

/-- `DataManager.get_all_events_for_hex`: region events followed by unit
events, deduplicated by message. -/
def get_all_events_for_hex (s : DataManagerState) (x y : Int) : List PyVal :=
  dedupEvents (get_events_for_region s x y ++ get_events_for_units s (hexUnitNumbers s x y))

/-! ## `MapManager` and `DataMngr`
(`pylantir/data/map_manager.py`, `pylantir/data/data_mngr.py`) -/

/-- The state of a `MapManager`: `map_data`, keyed by `f"{x},{y}"`. -/
structure MapManagerState where
  map_data : List (List Char × List (String × PyVal))
deriving Repr, DecidableEq

/-- `MapManager.update_region`: merge into an existing entry or insert. -/
def mapManagerUpdateRegion (m : MapManagerState) (x y : Int)
    (region_data : List (String × PyVal)) : MapManagerState :=
  let key := encodeKey x y
  match alookup m.map_data key with
  | some r => { map_data := setKey m.map_data key (dictUpdate r region_data) }
  | Option.none => { map_data := setKey m.map_data key region_data }

/-- The state held by a `DataMngr` instance: the parsed report (or `None`)
and its `MapManager`. -/
structure DataMngrState where
  report_data : Option (List (String × PyVal))
  map_manager : MapManagerState
deriving Repr, DecidableEq

/-- `DataMngr.update_map_manager`: push every region entry that has both
coordinates into the `MapManager`. -/
def mngrUpdateMapManager (doc : List (String × PyVal)) (m : MapManagerState) :
    MapManagerState :=
  (asList (pyGetD doc "regions" (.list []))).foldl
    (fun acc entry =>
      match coordsOf (asDict entry) with
      | some key => mapManagerUpdateRegion acc key.1 key.2 (asDict entry)
      | Option.none => acc)
    m

/-- `DataMngr.load_report`: clear `report_data` to `None` **before**
opening and parsing the file; on success store the parse and update the
`MapManager`, on failure re-raise (the clearing persists). -/
def mngrLoadReport (parsed : Option (List (String × PyVal))) (s : DataMngrState) :
    DataMngrState × Bool :=
  match parsed with
  | Option.none => ({ s with report_data := Option.none }, false)
  | some doc =>
      ({ report_data := some doc, map_manager := mngrUpdateMapManager doc s.map_manager },
        true)

/-! ## Ingestion characterization lemmas -/

/-- The value `_process_report_data` leaves in `regions` for a report
entry at `key`: the entry's dictionary, with the overlay entry for
`key` merged over it when one exists. -/
def storedRegion (pm : List ((Int × Int) × List (String × PyVal)))
    (key : Int × Int) (r : List (String × PyVal)) : List (String × PyVal) :=
  match alookup pm key with
  | some facts => dictUpdate r facts
  | Option.none => r


/-! ## Concrete report and state examples

Small parsed reports and manager states used to evaluate the operations
at specific inputs. -/

/-- An event tied to region `(0, 0)` that carries no `message` field. -/
def exEventNoMsg : PyVal :=
  .dict [("region", .dict [("coordinates", .dict [("x", .int 0), ("y", .int 0)])])]

/-- An event at region `(0, 0)` with message `"A"`. -/
def exEventMsgA : PyVal :=
  .dict [("message", .str "A"),
         ("region", .dict [("coordinates", .dict [("x", .int 0), ("y", .int 0)])])]

/-- A second event at region `(0, 0)` with the same message `"A"`. -/
def exEventMsgA2 : PyVal :=
  .dict [("message", .str "A"), ("category", .str "other"),
         ("region", .dict [("coordinates", .dict [("x", .int 0), ("y", .int 0)])])]

/-- An event at region `(0, 0)` with message `"B"`. -/
def exEventMsgB : PyVal :=
  .dict [("message", .str "B"),
         ("region", .dict [("coordinates", .dict [("x", .int 0), ("y", .int 0)])])]

/-- A manager state whose active event list holds one message-less event. -/
def exStateNoMsg : DataManagerState :=
  { report_data := [], persistent_map_data := [], regions := [], events := [exEventNoMsg] }

/-- A manager state with events `"A"`, `"A"`, `"B"` at region `(0, 0)`. -/
def exStateMsgs : DataManagerState :=
  { report_data := [], persistent_map_data := [], regions := [],
    events := [exEventMsgA, exEventMsgA2, exEventMsgB] }

/-- A region entry at the parity-invalid coordinate `(1, 0)`. -/
def exRegionInvalid : PyVal :=
  .dict [("coordinates", .dict [("x", .int 1), ("y", .int 0)]), ("terrain", .str "plains")]

/-- A report whose only region sits at the parity-invalid `(1, 0)`. -/
def exDocInvalid : List (String × PyVal) :=
  [("regions", .list [exRegionInvalid])]

/-- Overlay facts at `(0, 0)`. -/
def exPlainsFacts : List (String × PyVal) :=
  [("terrain", PyVal.str "plains")]

/-- A state that knows `(0, 0)` from the overlay (and as a region), ready
to receive a fresh report that no longer covers `(0, 0)`. -/
def exStateOverlay : DataManagerState :=
  { report_data := [],
    persistent_map_data := [((0, 0), exPlainsFacts)],
    regions := [((0, 0), [("coordinates", PyVal.dict [("x", .int 0), ("y", .int 0)]),
                          ("terrain", PyVal.str "plains")])],
    events := [] }

/-- A region entry at `(2, 0)`. -/
def exRegionTwoZero : PyVal :=
  .dict [("coordinates", .dict [("x", .int 2), ("y", .int 0)]), ("terrain", .str "desert")]

/-- A report covering only `(2, 0)` — not the overlay-known `(0, 0)`. -/
def exDocTwoZero : List (String × PyVal) :=
  [("regions", .list [exRegionTwoZero])]

/-- The report region of the settlement scenario: `(0, 0)`, terrain
`plain`, settlement `None`. -/
def exRegionShire : PyVal :=
  .dict [("coordinates", .dict [("x", .int 0), ("y", .int 0)]),
         ("terrain", .str "plain"), ("settlement", PyVal.none)]

/-- A report whose only region is the settlement-less `(0, 0)`. -/
def exDocShire : List (String × PyVal) :=
  [("regions", .list [exRegionShire])]

/-- Overlay facts recording the Shire settlement for `(0, 0)`. -/
def exShireFacts : List (String × PyVal) :=
  [("settlement", .dict [("name", .str "Shire"), ("size", .str "village")])]

/-- A state whose overlay remembers the Shire settlement at `(0, 0)`. -/
def exStateShire : DataManagerState :=
  { report_data := [], persistent_map_data := [((0, 0), exShireFacts)],
    regions := [], events := [] }

/-- A `DataMngr` that has a report loaded. -/
def exMngrLoaded : DataMngrState :=
  { report_data := some [("name", .str "Faction")], map_manager := { map_data := [] } }

/-- Extra fields outside the decaying subset, for `update_region`. -/
def exRoadData : List (String × PyVal) :=
  [("roads", .str "paved"), ("notes", .str "checked")]

/-! ## Supporting lemmas -/

theorem charToDigit_digitChar {d : Nat} (hd : d < 10) :
    charToDigit (digitChar d) = some d := by
  interval_cases d <;> decide

theorem digitChar_ne_comma {d : Nat} (hd : d < 10) : digitChar d ≠ ',' := by
  interval_cases d <;> decide

theorem digitChar_ne_minus {d : Nat} (hd : d < 10) : digitChar d ≠ '-' := by
  interval_cases d <;> decide

theorem digitsOfChars_map_digitChar :
    ∀ ds : List Nat, (∀ d ∈ ds, d < 10) →
      digitsOfChars (ds.map digitChar) = some ds := by
  intro ds h
  induction ds with
  | nil => rfl
  | cons d ds ih =>
      have hd : d < 10 := h d (List.mem_cons_self _ _)
      have hds : ∀ x ∈ ds, x < 10 := fun x hx => h x (List.mem_cons_of_mem _ hx)
      simp [digitsOfChars, charToDigit_digitChar hd, ih hds]

theorem parseNatChars_natToChars (n : Nat) :
    parseNatChars (natToChars n) = some n := by
  by_cases h0 : n = 0
  · subst h0; decide
  · have hne : Nat.digits 10 n ≠ [] := Nat.digits_ne_nil_iff_ne_zero.mpr h0
    have hlt : ∀ d ∈ (Nat.digits 10 n).reverse, d < 10 := by
      intro d hd
      exact Nat.digits_lt_base (by norm_num) (List.mem_reverse.mp hd)
    simp only [natToChars, if_neg h0, parseNatChars]
    rw [if_neg (by simpa using hne)]
    rw [digitsOfChars_map_digitChar _ hlt]
    simp [Nat.ofDigits_digits]

theorem natToChars_ne_nil (n : Nat) : natToChars n ≠ [] := by
  by_cases h0 : n = 0
  · subst h0; decide
  · simp only [natToChars, if_neg h0]
    simpa using Nat.digits_ne_nil_iff_ne_zero.mpr h0

theorem mem_natToChars {c : Char} {n : Nat} (hc : c ∈ natToChars n) :
    ∃ d, d < 10 ∧ c = digitChar d := by
  by_cases h0 : n = 0
  · subst h0; simp [natToChars] at hc
    exact ⟨0, by norm_num, hc⟩
  · simp only [natToChars, if_neg h0, List.mem_map, List.mem_reverse] at hc
    obtain ⟨d, hd, rfl⟩ := hc
    exact ⟨d, Nat.digits_lt_base (by norm_num) hd, rfl⟩

theorem comma_not_mem_natToChars (n : Nat) : ',' ∉ natToChars n := by
  intro hc
  obtain ⟨d, hd, hcd⟩ := mem_natToChars hc
  exact digitChar_ne_comma hd hcd.symm

theorem comma_not_mem_intToChars (x : Int) : ',' ∉ intToChars x := by
  cases x with
  | ofNat n => exact comma_not_mem_natToChars n
  | negSucc n =>
      intro hc
      rcases List.mem_cons.mp hc with h | h
      · exact absurd h.symm (by decide)
      · exact comma_not_mem_natToChars _ h

theorem parseIntChars_intToChars (x : Int) :
    parseIntChars (intToChars x) = some x := by
  cases x with
  | ofNat n =>
      obtain ⟨c, rest, hcr⟩ := List.exists_cons_of_ne_nil (natToChars_ne_nil n)
      have hcmem : c ∈ natToChars n := by rw [hcr]; exact List.mem_cons_self _ _
      obtain ⟨d, hd, rfl⟩ := mem_natToChars hcmem
      simp only [intToChars, hcr, parseIntChars, if_neg (digitChar_ne_minus hd)]
      rw [← hcr, parseNatChars_natToChars]
      rfl
  | negSucc n =>
      simp only [intToChars, parseIntChars, if_pos rfl, parseNatChars_natToChars]
      simp [Int.negSucc_eq]

theorem splitOnComma_of_not_mem {b : List Char} (hb : ',' ∉ b) :
    splitOnComma b = [b] := by
  induction b with
  | nil => rfl
  | cons c rest ih =>
      have hc : c ≠ ',' := fun h => hb (h ▸ List.mem_cons_self _ _)
      have hrest : ',' ∉ rest := fun h => hb (List.mem_cons_of_mem _ h)
      simp [splitOnComma, hc, ih hrest]

theorem splitOnComma_append {a b : List Char} (ha : ',' ∉ a) :
    splitOnComma (a ++ ',' :: b) = a :: splitOnComma b := by
  induction a with
  | nil => simp [splitOnComma]
  | cons c rest ih =>
      have hc : c ≠ ',' := fun h => ha (h ▸ List.mem_cons_self _ _)
      have hrest : ',' ∉ rest := fun h => ha (List.mem_cons_of_mem _ h)
      have h2 : splitOnComma (rest ++ ',' :: b) = rest :: splitOnComma b := ih hrest
      simp only [List.cons_append, splitOnComma, if_neg hc]
      rw [show rest.append (',' :: b) = rest ++ ',' :: b from rfl, h2]

theorem decodeKey_encodeKey (x y : Int) :
    decodeKey (encodeKey x y) = some (x, y) := by
  have hsplit : splitOnComma (intToChars x ++ ',' :: intToChars y)
      = [intToChars x, intToChars y] := by
    rw [splitOnComma_append (comma_not_mem_intToChars x),
        splitOnComma_of_not_mem (comma_not_mem_intToChars y)]
  simp [decodeKey, encodeKey, hsplit, parseIntChars_intToChars]

/-! ## Association-list lemmas -/

theorem alookup_setKey_self {α β : Type} [DecidableEq α]
    (d : List (α × β)) (k : α) (v : β) : alookup (setKey d k v) k = some v := by
  induction d with
  | nil => simp [setKey, alookup]
  | cons kv rest ih =>
      obtain ⟨k', v'⟩ := kv
      by_cases h : k' = k
      · subst h; simp [setKey, alookup]
      · simp [setKey, h, alookup, ih]

theorem alookup_setKey_ne {α β : Type} [DecidableEq α]
    (d : List (α × β)) {k k' : α} (v : β) (hne : k' ≠ k) :
    alookup (setKey d k' v) k = alookup d k := by
  induction d with
  | nil => simp [setKey, alookup, hne]
  | cons kv rest ih =>
      obtain ⟨k'', v''⟩ := kv
      by_cases h : k'' = k'
      · subst h; simp [setKey, alookup, hne]
      · simp only [setKey, if_neg h, alookup]
        by_cases h2 : k'' = k
        · simp [h2]
        · simp [h2, ih]

theorem alookup_dictUpdate_not_mem {α β : Type} [DecidableEq α]
    (d : List (α × β)) {u : List (α × β)} {k : α} (hk : k ∉ keysOf u) :
    alookup (dictUpdate d u) k = alookup d k := by
  induction u generalizing d with
  | nil => rfl
  | cons kv rest ih =>
      obtain ⟨k', v'⟩ := kv
      have hk' : k ∉ keysOf rest := fun h => hk (by simp [keysOf] at h ⊢; right; exact h)
      have hne : k' ≠ k := fun h => hk (by simp [keysOf, h])
      simp only [dictUpdate, List.foldl_cons]
      rw [show (rest.foldl (fun acc kv => setKey acc kv.1 kv.2) (setKey d k' v'))
            = dictUpdate (setKey d k' v') rest from rfl, ih _ hk',
        alookup_setKey_ne _ _ hne]

theorem alookup_dictUpdate_mem {α β : Type} [DecidableEq α]
    {u : List (α × β)} {k : α} {v : β}
    (hnd : (keysOf u).Nodup) (hv : (k, v) ∈ u) :
    ∀ d : List (α × β), alookup (dictUpdate d u) k = some v := by
  induction u with
  | nil => simp at hv
  | cons kv rest ih =>
      intro d
      obtain ⟨k', v'⟩ := kv
      simp only [keysOf, List.map_cons, List.nodup_cons] at hnd
      have hrest : (keysOf rest).Nodup := hnd.2
      simp only [dictUpdate, List.foldl_cons]
      rw [show (rest.foldl (fun acc kv => setKey acc kv.1 kv.2) (setKey d k' v'))
            = dictUpdate (setKey d k' v') rest from rfl]
      rcases List.mem_cons.mp hv with h | h
      · cases h
        have hk : k ∉ keysOf rest := by simpa [keysOf] using hnd.1
        rw [alookup_dictUpdate_not_mem _ hk, alookup_setKey_self]
      · exact ih hrest h _

theorem alookup_of_mem_nodup {α β : Type} [DecidableEq α]
    {l : List (α × β)} {k : α} {v : β}
    (hnd : (keysOf l).Nodup) (hv : (k, v) ∈ l) :
    alookup l k = some v := by
  induction l with
  | nil => simp at hv
  | cons kv rest ih =>
      obtain ⟨k', v'⟩ := kv
      simp only [keysOf, List.map_cons, List.nodup_cons] at hnd
      rcases List.mem_cons.mp hv with h | h
      · cases h; simp [alookup]
      · have hne : k' ≠ k := by
          intro he
          exact hnd.1 (he ▸ (by simpa [keysOf] using List.mem_map_of_mem Prod.fst h))
        simp [alookup, hne, ih hnd.2 h]

theorem contains_iff_mem {l : List PyVal} {a : PyVal} : l.contains a = true ↔ a ∈ l := by
  simp [List.contains, List.elem_iff]

/-! ## Deduplication lemmas -/

theorem dedupEventsGo_sublist : ∀ (l seen : List PyVal), (dedupEventsGo l seen).Sublist l := by
  intro l
  induction l with
  | nil => intro seen; simp [dedupEventsGo]
  | cons e rest ih =>
      intro seen
      simp only [dedupEventsGo]
      split
      · exact List.Sublist.cons₂ e (ih _)
      · exact List.Sublist.cons e (ih _)

theorem mem_dedupEventsGo {e : PyVal} :
    ∀ {l seen : List PyVal}, e ∈ dedupEventsGo l seen →
      isTruthy (eventMessage e) = true ∧ eventMessage e ∉ seen := by
  intro l
  induction l with
  | nil => intro seen h; simp [dedupEventsGo] at h
  | cons e' rest ih =>
      intro seen h
      simp only [dedupEventsGo] at h
      split at h
      · next hcond =>
          rcases List.mem_cons.mp h with rfl | h
          · refine ⟨((Bool.and_eq_true ..).mp hcond).1, fun hmem => ?_⟩
            have h2 := ((Bool.and_eq_true ..).mp hcond).2
            rw [contains_iff_mem.mpr hmem] at h2
            simp at h2
          · obtain ⟨h1, h2⟩ := ih h
            exact ⟨h1, fun hmem => h2 (List.mem_cons_of_mem _ hmem)⟩
      · exact ih h

theorem dedupEventsGo_pairwise :
    ∀ (l seen : List PyVal),
      (dedupEventsGo l seen).Pairwise (fun a b => eventMessage a ≠ eventMessage b) := by
  intro l
  induction l with
  | nil => intro seen; simp [dedupEventsGo]
  | cons e rest ih =>
      intro seen
      simp only [dedupEventsGo]
      split
      · refine List.Pairwise.cons (fun b hb hmsg => ?_) (ih _)
        exact (mem_dedupEventsGo hb).2 (hmsg ▸ List.mem_cons_self _ _)
      · exact ih _

theorem dedupEventsGo_covers {e : PyVal} :
    ∀ (l seen : List PyVal), e ∈ l → isTruthy (eventMessage e) = true →
      eventMessage e ∈ seen ∨
        ∃ e', e' ∈ dedupEventsGo l seen ∧ eventMessage e' = eventMessage e := by
  intro l
  induction l with
  | nil => intro seen h; simp at h
  | cons e' rest ih =>
      intro seen h htruthy
      simp only [dedupEventsGo]
      rcases List.mem_cons.mp h with rfl | h
      · by_cases hseen : eventMessage e ∈ seen
        · exact Or.inl hseen
        · right
          rw [if_pos (by
            simp only [htruthy, Bool.true_and, Bool.not_eq_true']
            exact (Bool.not_eq_true _).mp fun hc => hseen (contains_iff_mem.mp hc))]
          exact ⟨e, List.mem_cons_self _ _, rfl⟩
      · split
        · next hcond =>
            rcases ih (eventMessage e' :: seen) h htruthy with hs | ⟨x, hx, hxe⟩
            · rcases List.mem_cons.mp hs with heq | hs
              · exact Or.inr ⟨e', List.mem_cons_self _ _, heq.symm⟩
              · exact Or.inl hs
            · exact Or.inr ⟨x, List.mem_cons_of_mem _ hx, hxe⟩
        · exact ih seen h htruthy

theorem alookup_mergePersistentData_ne
    (pm : List ((Int × Int) × List (String × PyVal))) {key key' : Int × Int}
    (regs : List ((Int × Int) × List (String × PyVal))) (hne : key' ≠ key) :
    alookup (mergePersistentData pm key' regs) key = alookup regs key := by
  unfold mergePersistentData
  cases alookup pm key' with
  | none => rfl
  | some facts => exact alookup_setKey_ne _ _ hne

theorem alookup_processRegionEntry_ne
    (pm regs : List ((Int × Int) × List (String × PyVal))) (entry : PyVal)
    {key : Int × Int} (h : coordsOf (asDict entry) ≠ some key) :
    alookup (processRegionEntry pm regs entry) key = alookup regs key := by
  unfold processRegionEntry
  cases hc : coordsOf (asDict entry) with
  | none => rfl
  | some key' =>
      have hne : key' ≠ key := fun he => h (he ▸ hc)
      rw [alookup_mergePersistentData_ne _ _ hne, alookup_setKey_ne _ _ hne]

theorem alookup_processRegionEntry_self
    (pm regs : List ((Int × Int) × List (String × PyVal))) (entry : PyVal)
    {key : Int × Int} (h : coordsOf (asDict entry) = some key) :
    alookup (processRegionEntry pm regs entry) key
      = some (storedRegion pm key (asDict entry)) := by
  unfold processRegionEntry storedRegion
  rw [h]
  cases hpm : alookup pm key with
  | none => simp [mergePersistentData, hpm, alookup_setKey_self]
  | some facts =>
      simp only [mergePersistentData, hpm, alookup_setKey_self, alookup_setKey_self]

theorem alookup_foldl_processRegionEntry_not_mem
    (pm : List ((Int × Int) × List (String × PyVal))) {key : Int × Int} :
    ∀ (l : List PyVal) (regs : List ((Int × Int) × List (String × PyVal))),
      (∀ entry ∈ l, coordsOf (asDict entry) ≠ some key) →
      alookup (l.foldl (processRegionEntry pm) regs) key = alookup regs key := by
  intro l
  induction l with
  | nil => intro regs _; rfl
  | cons entry rest ih =>
      intro regs h
      simp only [List.foldl_cons]
      rw [ih _ (fun x hx => h x (List.mem_cons_of_mem _ hx)),
        alookup_processRegionEntry_ne _ _ _ (h entry (List.mem_cons_self _ _))]

theorem alookup_foldl_processRegionEntry_mem
    (pm : List ((Int × Int) × List (String × PyVal))) {key : Int × Int} :
    ∀ {l : List PyVal} (regs : List ((Int × Int) × List (String × PyVal))),
      (∃ entry ∈ l, coordsOf (asDict entry) = some key) →
      ∃ entry', entry' ∈ l ∧ coordsOf (asDict entry') = some key ∧
        alookup (l.foldl (processRegionEntry pm) regs) key
          = some (storedRegion pm key (asDict entry')) := by
  intro l
  induction l with
  | nil => intro regs h; simp at h
  | cons entry rest ih =>
      intro regs h
      simp only [List.foldl_cons]
      by_cases hrest : ∃ e ∈ rest, coordsOf (asDict e) = some key
      · obtain ⟨e', he', hc', heq⟩ := ih (processRegionEntry pm regs entry) hrest
        exact ⟨e', List.mem_cons_of_mem _ he', hc', heq⟩
      · have hnone : ∀ e ∈ rest, coordsOf (asDict e) ≠ some key := by
          intro e he hc
          exact hrest ⟨e, he, hc⟩
        obtain ⟨e0, he0, hc0⟩ := h
        rcases List.mem_cons.mp he0 with rfl | he0'
        · refine ⟨e0, List.mem_cons_self _ _, hc0, ?_⟩
          rw [alookup_foldl_processRegionEntry_not_mem _ _ _ hnone,
            alookup_processRegionEntry_self _ _ _ hc0]
        · exact absurd ⟨e0, he0', hc0⟩ hrest

/-! ## Overlay-application lemmas -/

theorem alookup_foldl_merge_not_mem
    (pm : List ((Int × Int) × List (String × PyVal))) {key : Int × Int} :
    ∀ (l : List ((Int × Int) × List (String × PyVal)))
      (regs : List ((Int × Int) × List (String × PyVal))),
      key ∉ keysOf l →
      alookup (l.foldl (fun regs kv => mergePersistentData pm kv.1 regs) regs) key
        = alookup regs key := by
  intro l
  induction l with
  | nil => intro regs _; rfl
  | cons kv rest ih =>
      intro regs h
      have hne : kv.1 ≠ key := fun he => h (by simp [keysOf, he])
      have hrest : key ∉ keysOf rest := fun hr => h (by simp [keysOf] at hr ⊢; right; exact hr)
      simp only [List.foldl_cons]
      rw [ih _ hrest, alookup_mergePersistentData_ne _ _ hne]

theorem alookup_foldl_merge_mem
    (pm : List ((Int × Int) × List (String × PyVal))) {key : Int × Int}
    {facts : List (String × PyVal)} (hpm : alookup pm key = some facts) :
    ∀ {l : List ((Int × Int) × List (String × PyVal))}
      (regs : List ((Int × Int) × List (String × PyVal))),
      (keysOf l).Nodup → key ∈ keysOf l →
      ∃ base, alookup (l.foldl (fun regs kv => mergePersistentData pm kv.1 regs) regs) key
        = some (dictUpdate base facts) := by
  intro l
  induction l with
  | nil => intro regs _ h; simp [keysOf] at h
  | cons kv rest ih =>
      intro regs hnd hmem
      simp only [keysOf, List.map_cons, List.nodup_cons] at hnd
      simp only [List.foldl_cons]
      by_cases hk : kv.1 = key
      · have hrest : key ∉ keysOf rest := hk ▸ hnd.1
        rw [alookup_foldl_merge_not_mem _ _ _ hrest]
        subst hk
        unfold mergePersistentData
        rw [hpm]
        exact ⟨_, alookup_setKey_self ..⟩
      · have hmem' : key ∈ keysOf rest := by
          rcases (by simpa [keysOf] using hmem : key = kv.1 ∨ ∃ x, (key, x) ∈ rest) with h | ⟨x, h⟩
          · exact absurd h.symm hk
          · simpa [keysOf] using List.mem_map_of_mem Prod.fst h
        exact ih _ hnd.2 hmem'

theorem mem_keysOf_of_alookup {α β : Type} [DecidableEq α]
    {l : List (α × β)} {k : α} {v : β} (h : alookup l k = some v) :
    k ∈ keysOf l := by
  induction l with
  | nil => simp [alookup] at h
  | cons kv rest ih =>
      obtain ⟨k', v'⟩ := kv
      by_cases he : k' = k
      · subst he; simp [keysOf]
      · simp only [alookup, if_neg he] at h
        simp only [keysOf, List.map_cons, List.mem_cons]
        exact Or.inr (ih h)

theorem decodePersistentData_save (pm : List ((Int × Int) × List (String × PyVal))) :
    decodePersistentData (pm.map (fun kv => (encodeKey kv.1.1 kv.1.2, kv.2))) = some pm := by
  induction pm with
  | nil => rfl
  | cons kv rest ih => simp [decodePersistentData, decodeKey_encodeKey, ih]

/-! ## Claim theorems -/

/-- C9: For all integer coordinates `(x, y)`, `is_valid_hex_coordinate`
returns `true` iff `x ≥ 0`, `y ≥ 0` and `x % 2 = y % 2`; in particular
`(2, 2)` is valid while `(3, 2)` and `(-1, 1)` are invalid.  (The check
is a pure function of its arguments, hence side-effect free.) -/
theorem c9_is_valid_hex_coordinate_spec :
    (∀ x y : Int, is_valid_hex_coordinate x y = true ↔ (0 ≤ x ∧ 0 ≤ y ∧ x % 2 = y % 2)) ∧
    is_valid_hex_coordinate 2 2 = true ∧
    is_valid_hex_coordinate 3 2 = false ∧
    is_valid_hex_coordinate (-1) 1 = false := by
  refine ⟨fun x y => ?_, by decide, by decide, by decide⟩
  unfold is_valid_hex_coordinate
  by_cases h1 : x < 0 <;> by_cases h2 : y < 0 <;> by_cases h3 : x % 2 = 0 <;>
    simp [h1, h2, h3, beq_iff_eq] <;> omega

/-- C9 witness: the general equivalence applied at `(2, 2)`. -/
theorem c9_is_valid_hex_coordinate_spec_witness :
    is_valid_hex_coordinate 2 2 = true :=
  (c9_is_valid_hex_coordinate_spec.1 2 2).mpr (by norm_num)

/-- C7: Serializing the persistent overlay with `f"{x},{y}"` keys and
deserializing the result (`tuple(map(int, k.split(',')))`) reproduces
exactly the original coordinate→facts pairs, for every overlay and
independent of insertion order; consequently `load_persistent_data` on
the output of `save_persistent_data` restores the very same overlay. -/
theorem c7_overlay_roundtrip (s s' : DataManagerState) :
    decodePersistentData (save_persistent_data s) = some s.persistent_map_data ∧
    ((load_persistent_data (save_persistent_data s) s').1).persistent_map_data
      = s.persistent_map_data := by
  have h := decodePersistentData_save s.persistent_map_data
  refine ⟨h, ?_⟩
  simp only [load_persistent_data, save_persistent_data] at h ⊢
  rw [h]
  rfl

/-- C6: Loading the same report document twice in a row leaves exactly the
Region Store content of a single load, for every parsed document and
every prior state (in particular every prior overlay). -/
theorem c6_reload_idempotent (doc : List (String × PyVal)) (s : DataManagerState) :
    ((load_report (some doc) ((load_report (some doc) s).1)).1).regions
      = ((load_report (some doc) s).1).regions := rfl

/-- C2 (amended): `get_all_events_for_hex` retains only events whose
`message` is truthy: an event with an absent or empty message is always
dropped from the result, never kept. -/
theorem c2_messageless_events_dropped (s : DataManagerState) (x y : Int) :
    ∀ e ∈ get_all_events_for_hex s x y, isTruthy (eventMessage e) = true :=
  fun _ he => (mem_dedupEventsGo he).1

/-- C2 witness: the amended theorem applied to the event with message
`"A"`, which is retained at hex `(0, 0)`. -/
theorem c2_messageless_events_dropped_witness :
    isTruthy (eventMessage exEventMsgA) = true :=
  c2_messageless_events_dropped exStateMsgs 0 0 exEventMsgA (by decide)

/-- C2 counterexample: a message-less event tied to region `(0, 0)` is a
region event for that hex, yet `get_all_events_for_hex` drops it — it is
not "always retained". -/
theorem c2_counterexample :
    get_events_for_region exStateNoMsg 0 0 = [exEventNoMsg] ∧
    get_all_events_for_hex exStateNoMsg 0 0 = [] := by
  constructor <;> rfl

/-- C8: `get_all_events_for_hex` is the message-deduplication of the
region events followed by the unit events of the hex; the result is an
order-preserving sublist of that concatenation, no two of its events
share a message (in particular no two share the same non-empty
message), and every truthy message of the concatenation survives. -/
theorem c8_events_for_hex_dedup (s : DataManagerState) (x y : Int) :
    get_all_events_for_hex s x y
        = dedupEvents (get_events_for_region s x y
            ++ get_events_for_units s (hexUnitNumbers s x y)) ∧
    (get_all_events_for_hex s x y).Sublist
        (get_events_for_region s x y ++ get_events_for_units s (hexUnitNumbers s x y)) ∧
    (get_all_events_for_hex s x y).Pairwise (fun a b => eventMessage a ≠ eventMessage b) ∧
    ∀ e ∈ get_events_for_region s x y ++ get_events_for_units s (hexUnitNumbers s x y),
      isTruthy (eventMessage e) = true →
        ∃ e', e' ∈ get_all_events_for_hex s x y ∧ eventMessage e' = eventMessage e := by
  refine ⟨rfl, dedupEventsGo_sublist _ _, dedupEventsGo_pairwise _ _, fun e he ht => ?_⟩
  rcases dedupEventsGo_covers _ [] he ht with hs | ⟨e', he', hm⟩
  · simp at hs
  · exact ⟨e', he', hm⟩

/-- C8 witness: at hex `(0, 0)` of the `"A"`, `"A"`, `"B"` event state the
aggregation keeps one event per message, as the theorem's dedup equation
evaluates concretely. -/
theorem c8_events_for_hex_dedup_witness :
    get_all_events_for_hex exStateMsgs 0 0
      = dedupEvents (get_events_for_region exStateMsgs 0 0
          ++ get_events_for_units exStateMsgs (hexUnitNumbers exStateMsgs 0 0)) ∧
    get_all_events_for_hex exStateMsgs 0 0 = [exEventMsgA, exEventMsgB] :=
  ⟨(c8_events_for_hex_dedup exStateMsgs 0 0).1, by decide⟩

/-- The Region Store produced by a successful report load is the fold of
the ingestion step over the document's region entries. -/
theorem regions_load_report (doc : List (String × PyVal)) (s : DataManagerState) :
    ((load_report (some doc) s).1).regions
      = (asList (pyGetD doc "regions" (.list []))).foldl
          (processRegionEntry s.persistent_map_data) [] := rfl

/-- C4 (amended): report ingestion skips only entries lacking coordinate
fields; it applies no parity validity check, so every entry whose
coordinates are present lands in the Region Store — valid or not. -/
theorem c4_ingestion_admits_present_coordinates
    (doc : List (String × PyVal)) (s : DataManagerState) (entry : PyVal) (x y : Int)
    (hmem : entry ∈ asList (pyGetD doc "regions" (.list [])))
    (hc : coordsOf (asDict entry) = some (x, y)) :
    (get_region ((load_report (some doc) s).1) x y).isSome = true := by
  obtain ⟨e', _, _, heq⟩ := alookup_foldl_processRegionEntry_mem s.persistent_map_data
      (l := asList (pyGetD doc "regions" (.list []))) [] ⟨entry, hmem, hc⟩
  unfold get_region
  rw [regions_load_report, heq]
  rfl

/-- C4 witness: the amended theorem applied to the parity-invalid entry
`(1, 0)` of the example report. -/
theorem c4_ingestion_admits_present_coordinates_witness :
    (get_region ((load_report (some exDocInvalid) initDataManager).1) 1 0).isSome = true :=
  c4_ingestion_admits_present_coordinates exDocInvalid initDataManager exRegionInvalid 1 0
    (by decide) (by decide)

/-- C4 counterexample: loading a report whose only region sits at the
parity-invalid coordinate `(1, 0)` stores that region, so the Region
Store holds a key violating the validity predicate. -/
theorem c4_counterexample :
    is_valid_hex_coordinate 1 0 = false ∧
    get_region ((load_report (some exDocInvalid) initDataManager).1) 1 0
      = some [("coordinates", PyVal.dict [("x", .int 1), ("y", .int 0)]),
              ("terrain", .str "plains")] := by
  constructor <;> rfl

/-- C5: When the overlay holds facts for a coordinate that the loaded
report also covers, each overlay fact overwrites the report's value for
that field in the stored region. -/
theorem c5_overlay_precedence
    (doc : List (String × PyVal)) (s : DataManagerState) (x y : Int)
    (facts : List (String × PyVal)) (k : String) (v : PyVal)
    (hov : alookup s.persistent_map_data (x, y) = some facts)
    (hnd : (keysOf facts).Nodup) (hkv : (k, v) ∈ facts)
    (hcov : ∃ entry ∈ asList (pyGetD doc "regions" (.list [])),
        coordsOf (asDict entry) = some (x, y)) :
    ∃ r, get_region ((load_report (some doc) s).1) x y = some r ∧ alookup r k = some v := by
  obtain ⟨e', _, _, heq⟩ := alookup_foldl_processRegionEntry_mem s.persistent_map_data
      (l := asList (pyGetD doc "regions" (.list []))) [] hcov
  refine ⟨storedRegion s.persistent_map_data (x, y) (asDict e'), ?_, ?_⟩
  · unfold get_region
    rw [regions_load_report, heq]
  · unfold storedRegion
    rw [hov]
    exact alookup_dictUpdate_mem hnd hkv _

/-- C5 witness: the report carries `(0, 0)` with `settlement = None` while
the overlay recorded the Shire village there; after the load the stored
region's settlement is the Shire. -/
theorem c5_overlay_precedence_witness :
    ∃ r, get_region ((load_report (some exDocShire) exStateShire).1) 0 0 = some r ∧
      alookup r "settlement"
        = some (PyVal.dict [("name", .str "Shire"), ("size", .str "village")]) :=
  c5_overlay_precedence exDocShire exStateShire 0 0 exShireFacts "settlement" _
    rfl (by decide) (by decide) ⟨exRegionShire, by decide, by decide⟩

/-- C1 counterexample: the overlay knows `(0, 0)` (and the prior session
displayed it), but a full report load covering only `(2, 0)` leaves
`(0, 0)` out of the Region Store — `_process_report_data` never calls
`_apply_persistent_data`. -/
theorem c1_counterexample :
    alookup exStateOverlay.persistent_map_data (0, 0) = some exPlainsFacts ∧
    get_region exStateOverlay 0 0 ≠ Option.none ∧
    get_region ((load_report (some exDocTwoZero) exStateOverlay).1) 0 0 = Option.none := by
  refine ⟨rfl, by decide, rfl⟩

/-- C1 (amended): the stub-creating reappearance happens when
`_apply_persistent_data` runs (invoked by `load_persistent_data`), not
after a report load: applying the overlay puts every overlay coordinate
into the Region Store, carrying all of the overlay's facts for it. -/
theorem c1_apply_persistent_data_restores
    (s : DataManagerState) (hnd : (keysOf s.persistent_map_data).Nodup)
    (key : Int × Int) (facts : List (String × PyVal))
    (hkey : alookup s.persistent_map_data key = some facts)
    (hfnd : (keysOf facts).Nodup) :
    ∃ r, alookup (applyPersistentData s).regions key = some r ∧
      ∀ k v, (k, v) ∈ facts → alookup r k = some v := by
  obtain ⟨base, hb⟩ := alookup_foldl_merge_mem _ hkey _ hnd (mem_keysOf_of_alookup hkey)
  exact ⟨dictUpdate base facts, hb, fun k v hkv => alookup_dictUpdate_mem hfnd hkv _⟩

/-- C1 witness: applying the overlay of the Shire state (whose Region
Store is empty) restores `(0, 0)` with the recorded settlement. -/
theorem c1_apply_persistent_data_restores_witness :
    ∃ r, alookup (applyPersistentData exStateShire).regions (0, 0) = some r ∧
      ∀ k v, (k, v) ∈ exShireFacts → alookup r k = some v :=
  c1_apply_persistent_data_restores exStateShire (by decide) (0, 0) exShireFacts
    rfl (by decide)

/-- C3 (amended): on a parse failure `DataManager.load_report` re-raises
with its entire state untouched, but `DataMngr.load_report` has already
cleared `report_data` to `None` before parsing, so only its
`MapManager` survives a failed load. -/
theorem c3_parse_failure_state :
    (∀ s : DataManagerState, load_report Option.none s = (s, false)) ∧
    (∀ s : DataMngrState, mngrLoadReport Option.none s
        = ({ report_data := Option.none, map_manager := s.map_manager }, false)) :=
  ⟨fun _ => rfl, fun _ => rfl⟩

/-- C3 counterexample: a `DataMngr` that had a report loaded loses it on a
failed parse — the previously committed `report_data` is not preserved. -/
theorem c3_counterexample :
    (mngrLoadReport Option.none exMngrLoaded).1.report_data ≠ exMngrLoaded.report_data := by
  decide

/-- C10: after `update_region(x, y, data)` both the Region Store entry and
the overlay entry at `(x, y)` exist and contain every field of `data`
(not only the decaying subset), and a subsequent report load leaves the
overlay — and hence those recorded fields — untouched. -/
theorem c10_update_region_records_all_fields
    (s : DataManagerState) (x y : Int) (data : List (String × PyVal))
    (hnd : (keysOf data).Nodup) :
    (∃ r, get_region (update_region s x y data) x y = some r ∧
        ∀ k v, (k, v) ∈ data → alookup r k = some v) ∧
    (∃ p, alookup (update_region s x y data).persistent_map_data (x, y) = some p ∧
        ∀ k v, (k, v) ∈ data → alookup p k = some v) ∧
    (∀ doc, ((load_report (some doc) (update_region s x y data)).1).persistent_map_data
        = (update_region s x y data).persistent_map_data) := by
  cases h : alookup s.regions (x, y) with
  | some r =>
      simp only [update_region, get_region, h]
      exact ⟨⟨dictUpdate r data, alookup_setKey_self .., fun k v hkv =>
          alookup_dictUpdate_mem hnd hkv _⟩,
        ⟨dictUpdate ((alookup s.persistent_map_data (x, y)).getD []) data,
          alookup_setKey_self .., fun k v hkv => alookup_dictUpdate_mem hnd hkv _⟩,
        fun doc => rfl⟩
  | none =>
      simp only [update_region, get_region, h]
      exact ⟨⟨dictUpdate
            [("coordinates", PyVal.dict [("x", PyVal.int x), ("y", PyVal.int y)])] data,
          alookup_setKey_self .., fun k v hkv => alookup_dictUpdate_mem hnd hkv _⟩,
        ⟨data, alookup_setKey_self .., fun k v hkv => alookup_of_mem_nodup hnd hkv⟩,
        fun doc => rfl⟩

/-- C10 witness: updating `(2, 0)` of a fresh manager with road data puts
both fields in the region and in the overlay, and a report load keeps
the overlay. -/
theorem c10_update_region_records_all_fields_witness :
    (∃ r, get_region (update_region initDataManager 2 0 exRoadData) 2 0 = some r ∧
        ∀ k v, (k, v) ∈ exRoadData → alookup r k = some v) ∧
    (∃ p, alookup (update_region initDataManager 2 0 exRoadData).persistent_map_data
          (2, 0) = some p ∧
        ∀ k v, (k, v) ∈ exRoadData → alookup p k = some v) ∧
    (∀ doc, ((load_report (some doc)
          (update_region initDataManager 2 0 exRoadData)).1).persistent_map_data
        = (update_region initDataManager 2 0 exRoadData).persistent_map_data) :=
  c10_update_region_records_all_fields initDataManager 2 0 exRoadData (by decide)

end PyLantir
